import Mathlib

/-!
Shallow embedding of the pyrf96 data/covariance/noise layer
(`src/pyrf96/_pyrf96.py`) together with the misfit evaluation used by the
demo driver (`examples/RFcalcdemo.py`).

Conventions: machine floats are modelled as real numbers, numpy arrays as
lists or index functions, and fallible code returns `Except`.  The external
Fortran propagation routine (`rf96*.so`) is not part of the Python source;
where a claim depends on its output, the corresponding definition is
modelled from the specification and its doc comment says so.
-/

namespace Pyrf96

/-! ## Noise kernel library (source lines 192-201) -/

/-- `def sqExp(x,xp,s1,rho): return (s1**2) * np.exp(-(x-xp)**2/(2.*rho**2))` -/
noncomputable def sqExp (x xp s1 rho : ℝ) : ℝ :=
  s1 ^ 2 * Real.exp (-(x - xp) ^ 2 / (2 * rho ^ 2))

/-- `def matern0(x,xp,s1,rho): return (s1**2)*np.exp(-np.abs(x-xp)/rho)` -/
noncomputable def matern0 (x xp s1 rho : ℝ) : ℝ :=
  s1 ^ 2 * Real.exp (-|x - xp| / rho)

/-- `def matern1(x,xp,s1,rho): return (s1**2)*(1.+np.sqrt(3)*abs(x-xp)/rho)*np.exp(-np.sqrt(3)*abs(x-xp)/rho)` -/
noncomputable def matern1 (x xp s1 rho : ℝ) : ℝ :=
  s1 ^ 2 * (1 + Real.sqrt 3 * |x - xp| / rho) * Real.exp (-Real.sqrt 3 * |x - xp| / rho)

/-- `def matern2(x,xp,s1,rho): return (s1**2)*(1.+np.sqrt(5)*abs(x-xp)/rho+5.*(x-xp)**2/(3.*rho**2))*np.exp(-np.sqrt(5)*abs(x-xp)/rho)` -/
noncomputable def matern2 (x xp s1 rho : ℝ) : ℝ :=
  s1 ^ 2 * (1 + Real.sqrt 5 * |x - xp| / rho + 5 * (x - xp) ^ 2 / (3 * rho ^ 2)) *
    Real.exp (-Real.sqrt 5 * |x - xp| / rho)

/-- `def periodic(x,xp,s1,rho,period): return (s1**2)*np.exp(-(2*np.sin(abs(x-xp)*np.pi/period)**2)/rho**2)` -/
noncomputable def periodic (x xp s1 rho period : ℝ) : ℝ :=
  s1 ^ 2 * Real.exp (-(2 * Real.sin (|x - xp| * Real.pi / period) ^ 2) / rho ^ 2)

/-! ## Misfit evaluation (demo driver lines 85-87) -/

/-- Waveform misfit as computed by the demo driver:
`res = RFo - RFp; mref = np.dot(res, np.transpose(np.dot(Cdinv, res))) / 2.0`. -/
noncomputable def misfit {n : ℕ} (observed predicted : Fin n → ℝ)
    (Cdinv : Matrix (Fin n) (Fin n) ℝ) : ℝ :=
  (∑ i, (observed i - predicted i) * (∑ j, Cdinv i j * (observed j - predicted j))) / 2

/-! ## Claim theorems for the kernels and the misfit -/

/-- C4: every one of the five noise kernel functions is symmetric in its two
evaluation points, and at zero lag it evaluates to the variance `amp_sigma ^ 2`. -/
theorem noise_kernels_symmetric_and_variance_at_zero_lag
    (x xp s1 rho period : ℝ) :
    (sqExp x xp s1 rho = sqExp xp x s1 rho ∧ sqExp x x s1 rho = s1 ^ 2) ∧
    (matern0 x xp s1 rho = matern0 xp x s1 rho ∧ matern0 x x s1 rho = s1 ^ 2) ∧
    (matern1 x xp s1 rho = matern1 xp x s1 rho ∧ matern1 x x s1 rho = s1 ^ 2) ∧
    (matern2 x xp s1 rho = matern2 xp x s1 rho ∧ matern2 x x s1 rho = s1 ^ 2) ∧
    (periodic x xp s1 rho period = periodic xp x s1 rho period ∧
      periodic x x s1 rho period = s1 ^ 2) := by
  have hsq : (x - xp) ^ 2 = (xp - x) ^ 2 := by ring
  have habs : |x - xp| = |xp - x| := abs_sub_comm x xp
  refine ⟨⟨?_, ?_⟩, ⟨?_, ?_⟩, ⟨?_, ?_⟩, ⟨?_, ?_⟩, ⟨?_, ?_⟩⟩
  · rw [sqExp, sqExp, hsq]
  · simp [sqExp]
  · rw [matern0, matern0, habs]
  · simp [matern0]
  · rw [matern1, matern1, habs]
  · simp [matern1]
  · rw [matern2, matern2, habs, hsq]
  · simp [matern2]
  · rw [periodic, periodic, habs]
  · simp [periodic]

/-! ## Time-domain noise injector (source lines 166-189)

The `noise` argument of the source is a Python dict read at the keys
`'kernel'`, `'amp_sigma'` and `'corr_time'`; the source never reads a
`'period'` key.  A caller may still place one in the dict, so the record
carries an optional `period` field, which the embedding (like the source)
ignores. -/

structure NoiseDict where
  kernel : String
  amp_sigma : ℝ
  corr_time : ℝ
  period : Option ℝ := none

/-- Failure modes of `add_time_domain_noise`, named after the Python
exceptions the source raises. -/
inductive NoiseError where
  /-- No dispatch branch matched, so the local `k` was never assigned;
  calling it raises `UnboundLocalError`. -/
  | unboundKernel (name : String)
  /-- The periodic branch binds `k = lambda x,xp: periodic(x,xp,amp_sigma,corr_time)`,
  omitting the required fifth argument `period` of `periodic`; every call of
  `k` raises `TypeError: missing positional argument`. -/
  | missingPeriodArgument
  /-- `t[0]` / `t[-1]` on an empty time array raises `IndexError`. -/
  | indexError
deriving DecidableEq

/-- The kernel names recognised by the dispatch chain of
`add_time_domain_noise`. -/
def kernelNames : List String := ["sqExp", "matern0", "matern1", "matern2", "periodic"]

/-- The `if/elif` kernel dispatch of `add_time_domain_noise` (source lines
170-179).  Binding `k` never fails by itself; the failures materialise when
`k` is called, hence the `Except`-valued kernel function. -/
noncomputable def dispatchKernel (noise : NoiseDict) : ℝ → ℝ → Except NoiseError ℝ :=
  if noise.kernel = "sqExp" then
    fun x xp => .ok (sqExp x xp noise.amp_sigma noise.corr_time)
  else if noise.kernel = "matern0" then
    fun x xp => .ok (matern0 x xp noise.amp_sigma noise.corr_time)
  else if noise.kernel = "matern1" then
    fun x xp => .ok (matern1 x xp noise.amp_sigma noise.corr_time)
  else if noise.kernel = "matern2" then
    fun x xp => .ok (matern2 x xp noise.amp_sigma noise.corr_time)
  else if noise.kernel = "periodic" then
    fun _ _ => .error NoiseError.missingPeriodArgument
  else
    fun _ _ => .error (NoiseError.unboundKernel noise.kernel)

/-- `np.linspace(a, b, n)`: `n` evenly spaced points from `a` to `b`
inclusive (`[a]` for `n = 1`, `[]` for `n = 0`). -/
noncomputable def linspace (a b : ℝ) (n : ℕ) : List ℝ :=
  if n = 0 then []
  else if n = 1 then [a]
  else (List.range n).map (fun i : ℕ => a + (b - a) * (i : ℝ) / ((n - 1 : ℕ) : ℝ))

/-- Effectful map in evaluation order: the first failing element aborts,
like an exception escaping a Python loop. -/
def exceptMap {α β ε : Type} (f : α → Except ε β) : List α → Except ε (List β)
  | [] => .ok []
  | x :: xs =>
    match f x with
    | .error e => .error e
    | .ok y =>
      match exceptMap f xs with
      | .error e => .error e
      | .ok ys => .ok (y :: ys)

/-- `add_time_domain_noise(w, t, noise)` (source lines 166-189): dispatch the
kernel, evaluate it over `nt` points linearly spaced on `[t[0], t[-1]]`
(building the covariance matrix `K` row by row), then add one
multivariate-normal realization to `w` and return both.  The pseudo-random
draw, which numpy takes from the ambient generator state, is abstracted as
the function `draw` of the covariance matrix. -/
noncomputable def add_time_domain_noise (w t : List ℝ) (noise : NoiseDict)
    (draw : List (List ℝ) → ℕ → ℝ) : Except NoiseError (List ℝ × List (List ℝ)) :=
  match t.head?, t.getLast? with
  | some t0, some tl =>
    match exceptMap (fun xi => exceptMap (fun xj => dispatchKernel noise xi xj)
        (linspace t0 tl w.length)) (linspace t0 tl w.length) with
    | .error e => .error e
    | .ok K =>
      .ok (List.zipWith (fun wi ni => wi + ni) w ((List.range w.length).map (draw K)), K)
  | _, _ => .error NoiseError.indexError

/-- A heap of numpy arrays indexed by object identity, for stating aliasing
facts about the source's in-place update `w += ...`. -/
def Store : Type := ℕ → List ℝ

/-- Heap-level view of `add_time_domain_noise`: `w += np.random.multivariate_normal(...)`
is ndarray augmented assignment, which mutates the caller's array in place,
and `return w, K` returns that same object.  `wid`/`tid` are the identities
of the waveform and time arrays in the store. -/
noncomputable def add_time_domain_noise_inplace (σ : Store) (wid tid : ℕ)
    (noise : NoiseDict) (draw : List (List ℝ) → ℕ → ℝ) :
    Except NoiseError (Store × ℕ × List (List ℝ)) :=
  match add_time_domain_noise (σ wid) (σ tid) noise draw with
  | .error e => .error e
  | .ok (w2, K) => .ok (Function.update σ wid w2, wid, K)

/-! ## The forward-solver adapter `rfcalc` (source lines 22-164) -/

/-- One row of the `(npts, 3)` model array: `model[i] = (a, Vs, VpVs)`. -/
structure Layer (α : Type) where
  a : α
  vs : α
  vpvs : α

/-- One entry of the `qmodels` pair: a scalar quality factor to broadcast,
or an explicit per-layer numpy array. -/
inductive QEntry where
  | scalar (q : ℝ)
  | array (qs : List ℝ)

/-- Resolution of one `qmodels` entry (source lines 105-116):
`if np.isscalar(qmodels[k]): q = qmodels[k]*np.ones(npt) else: q = qmodels[k]`.
No validation of any kind is performed on the array branch. -/
noncomputable def resolveQEntry (npt : ℕ) : QEntry → List ℝ
  | .scalar q => (List.replicate npt (1 : ℝ)).map (fun o => q * o)
  | .array qs => qs

/-- The default `qmodels=[1450.,600.]` of the `rfcalc` signature. -/
def defaultQModels : QEntry × QEntry := (QEntry.scalar 1450, QEntry.scalar 600)

/-- Result of `rfcalc`: the default `(time, wdata)` pair, or the
`(time, wdata, Cd)` triple of the time-domain-noise path. -/
inductive RFResult where
  | pair (time wdata : List ℝ)
  | triple (time wdata : List ℝ) (Cd : List (List ℝ))

/-- Modelled from the spec: the external Fortran routine fills the
preallocated `time_f` array (source line 101, `np.zeros(ndatar)`) with the
RFWaveform time axis, "uniformly sampled at `1/fs` spacing starting
conceptually at 0" (spec, Data model).  The Fortran source is not part of
this repository's Python sources. -/
noncomputable def solverTime (fs : ℝ) (ndatar : ℕ) : List ℝ :=
  (List.range ndatar).map (fun i : ℕ => (i : ℝ) / fs)

/-- The waveform filled into the preallocated `wdata_f` array (source line
103) by the external solver: `rfcalc_nonoise` on the `sn == 0.0` branch and
the seeded `rfcalc_noise` otherwise (source lines 119-156).  The two Fortran
routines are abstracted as the amplitude response functions
`solverN`/`solverS` of the marshalled model and attenuation arrays. -/
noncomputable def rfWave
    (solverN solverS : List (Layer ℝ) → List ℝ → List ℝ → ℕ → ℝ)
    (model : List (Layer ℝ)) (sn : ℝ) (ndatar : ℕ)
    (qmodels : QEntry × QEntry) : List ℝ :=
  let qa := resolveQEntry model.length qmodels.1
  let qb := resolveQEntry model.length qmodels.2
  if sn = 0 then (List.range ndatar).map (solverN model qa qb)
  else (List.range ndatar).map (solverS model qa qb)

/-- `rfcalc` (source lines 22-164).  Control flow is the source's: resolve
`qa`/`qb` and call the solver (`rfWave`, `solverTime`), then inject
time-domain noise when a noise dict was supplied, returning the
`(time, wdata, Cd)` triple in that case and the `(time, wdata)` pair
otherwise. -/
noncomputable def rfcalc
    (solverN solverS : List (Layer ℝ) → List ℝ → List ℝ → ℕ → ℝ)
    (draw : List (List ℝ) → ℕ → ℝ)
    (model : List (Layer ℝ)) (sn fs : ℝ) (ndatar : ℕ)
    (noise : Option NoiseDict) (qmodels : QEntry × QEntry) :
    Except NoiseError RFResult :=
  match noise with
  | some nd =>
    match add_time_domain_noise (rfWave solverN solverS model sn ndatar qmodels)
        (solverTime fs ndatar) nd draw with
    | .error e => .error e
    | .ok (w2, Cd) =>
      .ok (RFResult.triple (solverTime fs ndatar) w2 Cd)
  | none =>
    .ok (RFResult.pair (solverTime fs ndatar)
      (rfWave solverN solverS model sn ndatar qmodels))

/-- The 13-layer `InterfaceDepth` reference model of the test and demo
scripts (`vtype == 2` branch). -/
noncomputable def refModel13 : List (Layer ℝ) :=
  [⟨20.0, 3.4600, 1.73⟩, ⟨35.0, 3.8500, 1.73⟩, ⟨77.5, 4.4850, 1.73⟩,
   ⟨120.0, 4.4950, 1.73⟩, ⟨165.0, 4.5045, 1.73⟩, ⟨210.0, 4.5145, 1.73⟩,
   ⟨260.0, 4.5660, 1.73⟩, ⟨310.0, 4.6525, 1.73⟩, ⟨360.0, 4.7395, 1.73⟩,
   ⟨410.0, 4.8265, 1.73⟩, ⟨460.0, 5.1330, 1.73⟩, ⟨510.0, 5.2390, 1.73⟩,
   ⟨510.0, 5.3450, 1.73⟩]

/-- C3: the misfit evaluation computes `0.5 * r^T Cdinv r` with
`r = observed - predicted`, and the misfit of a waveform against itself is `0`. -/
theorem misfit_quadratic_form_and_zero_residual {n : ℕ}
    (observed predicted x : Fin n → ℝ) (Cdinv : Matrix (Fin n) (Fin n) ℝ) :
    misfit observed predicted Cdinv =
      Matrix.dotProduct (observed - predicted) (Cdinv.mulVec (observed - predicted)) / 2 ∧
    misfit x x Cdinv = 0 := by
  constructor
  · simp [misfit, Matrix.dotProduct, Matrix.mulVec, mul_comm]
  · simp [misfit]

/-! ## Helper lemmas about the noise injector -/

lemma linspace_ne_nil (a b : ℝ) {n : ℕ} (hn : n ≠ 0) : linspace a b n ≠ [] := by
  unfold linspace
  rw [if_neg hn]
  by_cases h1 : n = 1
  · rw [if_pos h1]; simp
  · rw [if_neg h1]
    simp only [ne_eq, List.map_eq_nil_iff, List.range_eq_nil]
    exact hn

lemma exceptMap_const_error {α β : Type} {e : NoiseError}
    (f : α → Except NoiseError β) (hf : ∀ x, f x = .error e) :
    ∀ xs : List α, xs ≠ [] → exceptMap f xs = .error e
  | [], h => absurd rfl h
  | x :: _, _ => by unfold exceptMap; rw [hf x]

/-- When every call of the dispatched kernel fails, building the covariance
matrix fails with that error as soon as there is at least one sample. -/
lemma add_noise_of_kernel_error (w t : List ℝ) (nd : NoiseDict)
    (draw : List (List ℝ) → ℕ → ℝ) (e : NoiseError)
    (hw : w ≠ []) (ht : t ≠ [])
    (hk : dispatchKernel nd = fun _ _ => Except.error e) :
    add_time_domain_noise w t nd draw = .error e := by
  obtain ⟨t0, ht0⟩ : ∃ t0, t.head? = some t0 := by
    cases t with
    | nil => exact absurd rfl ht
    | cons a l => exact ⟨a, rfl⟩
  obtain ⟨tl, htl⟩ : ∃ tl, t.getLast? = some tl := by
    cases hgl : t.getLast? with
    | none => exact absurd (by simpa using hgl) ht
    | some a => exact ⟨a, rfl⟩
  have hlen : w.length ≠ 0 := by simpa using hw
  have hxx : linspace t0 tl w.length ≠ [] := linspace_ne_nil _ _ hlen
  have hinner : ∀ xi : ℝ,
      exceptMap (fun xj => dispatchKernel nd xi xj) (linspace t0 tl w.length) =
        Except.error e := by
    intro xi
    exact exceptMap_const_error _ (fun xj => by rw [hk]) _ hxx
  have houter :
      exceptMap (fun xi => exceptMap (fun xj => dispatchKernel nd xi xj)
        (linspace t0 tl w.length)) (linspace t0 tl w.length) = Except.error e :=
    exceptMap_const_error _ hinner _ hxx
  unfold add_time_domain_noise
  rw [ht0, htl]
  simp only [houter]

/-- Success inversion for the injector: the returned waveform is the input
waveform plus the drawn realization, elementwise. -/
lemma add_noise_ok_inversion (w t : List ℝ) (nd : NoiseDict)
    (draw : List (List ℝ) → ℕ → ℝ) (w2 : List ℝ) (K : List (List ℝ))
    (h : add_time_domain_noise w t nd draw = .ok (w2, K)) :
    w2 = List.zipWith (fun wi ni => wi + ni) w ((List.range w.length).map (draw K)) := by
  unfold add_time_domain_noise at h
  split at h
  · split at h
    · simp at h
    · simp only [Except.ok.injEq, Prod.mk.injEq] at h
      obtain ⟨hw2, hK⟩ := h
      rw [← hw2, hK]
  · simp at h

/-! ## Claim theorems for the injector and the adapter -/

/-- C7: invoked on a nonempty waveform with a kernel name outside the five
recognized ones, the injector fails (the local `k` is never bound); with the
periodic kernel and no caller-supplied period it fails as well (the source
lambda never passes a `period` argument to `periodic`).  Both failures
surface immediately as the returned error. -/
theorem add_time_domain_noise_config_errors
    (w t : List ℝ) (nd : NoiseDict) (draw : List (List ℝ) → ℕ → ℝ)
    (hw : w ≠ []) (ht : t ≠ []) :
    (nd.kernel ∉ kernelNames →
      add_time_domain_noise w t nd draw = .error (NoiseError.unboundKernel nd.kernel)) ∧
    (nd.kernel = "periodic" → nd.period = none →
      add_time_domain_noise w t nd draw = .error NoiseError.missingPeriodArgument) := by
  constructor
  · intro hmem
    apply add_noise_of_kernel_error w t nd draw _ hw ht
    have h1 : ¬nd.kernel = "sqExp" := fun h => hmem (by simp [kernelNames, h])
    have h2 : ¬nd.kernel = "matern0" := fun h => hmem (by simp [kernelNames, h])
    have h3 : ¬nd.kernel = "matern1" := fun h => hmem (by simp [kernelNames, h])
    have h4 : ¬nd.kernel = "matern2" := fun h => hmem (by simp [kernelNames, h])
    have h5 : ¬nd.kernel = "periodic" := fun h => hmem (by simp [kernelNames, h])
    rw [dispatchKernel, if_neg h1, if_neg h2, if_neg h3, if_neg h4, if_neg h5]
  · intro hper _
    apply add_noise_of_kernel_error w t nd draw _ hw ht
    have h1 : ¬nd.kernel = "sqExp" := by rw [hper]; decide
    have h2 : ¬nd.kernel = "matern0" := by rw [hper]; decide
    have h3 : ¬nd.kernel = "matern1" := by rw [hper]; decide
    have h4 : ¬nd.kernel = "matern2" := by rw [hper]; decide
    rw [dispatchKernel, if_neg h1, if_neg h2, if_neg h3, if_neg h4, if_pos hper]

/-- Witness for C7 at concrete inputs: an unrecognized kernel name and the
periodic kernel without a period both yield the corresponding error. -/
theorem add_time_domain_noise_config_errors_witness :
    add_time_domain_noise [(0 : ℝ)] [(0 : ℝ)] ⟨"gauss", 1, 1, none⟩ (fun _ _ => 1) =
      .error (NoiseError.unboundKernel "gauss") ∧
    add_time_domain_noise [(0 : ℝ)] [(0 : ℝ)] ⟨"periodic", 1, 1, none⟩ (fun _ _ => 1) =
      .error NoiseError.missingPeriodArgument :=
  ⟨(add_time_domain_noise_config_errors _ _ _ _ (List.cons_ne_nil _ _)
      (List.cons_ne_nil _ _)).1 (by decide),
   (add_time_domain_noise_config_errors _ _ _ _ (List.cons_ne_nil _ _)
      (List.cons_ne_nil _ _)).2 rfl rfl⟩

/-- C9: `add_time_domain_noise` mutates its input array.  In the store model
of numpy object identity, a successful call returns the very identity `wid`
it was given, the store at `wid` now holds the waveform with the noise
realization added elementwise (so the caller's clean waveform is gone), and
no other array is touched. -/
theorem add_time_domain_noise_mutates_input
    (σ : Store) (wid tid : ℕ) (nd : NoiseDict) (draw : List (List ℝ) → ℕ → ℝ)
    (σ' : Store) (rid : ℕ) (K : List (List ℝ))
    (h : add_time_domain_noise_inplace σ wid tid nd draw = .ok (σ', rid, K)) :
    rid = wid ∧
    σ' wid = List.zipWith (fun wi ni => wi + ni) (σ wid)
      ((List.range (σ wid).length).map (draw K)) ∧
    (∀ j, j ≠ wid → σ' j = σ j) := by
  unfold add_time_domain_noise_inplace at h
  split at h
  · simp at h
  · rename_i w2 K' heq
    simp only [Except.ok.injEq, Prod.mk.injEq] at h
    obtain ⟨hσ, hrid, hK⟩ := h
    subst hσ hrid hK
    refine ⟨rfl, ?_, ?_⟩
    · rw [Function.update_same]
      exact add_noise_ok_inversion _ _ _ _ _ _ heq
    · intro j hj
      exact Function.update_noteq hj _ _

/-- Witness for C9: a concrete one-sample store; after the call the
waveform's identity is unchanged but its contents are not. -/
theorem add_time_domain_noise_mutates_input_witness :
    ∃ σ' : Store, ∃ K,
      add_time_domain_noise_inplace (fun _ => [(0 : ℝ)]) 0 1 ⟨"sqExp", 1, 1, none⟩
        (fun _ _ => 1) = .ok (σ', 0, K) ∧
      σ' 0 ≠ [(0 : ℝ)] ∧ σ' 1 = [(0 : ℝ)] := by
  have h : add_time_domain_noise_inplace (fun _ => [(0 : ℝ)]) 0 1 ⟨"sqExp", 1, 1, none⟩
      (fun _ _ => 1) =
      .ok (Function.update (fun _ => [(0 : ℝ)]) 0 [(0 : ℝ) + 1], 0,
        [[sqExp 0 0 1 1]]) := rfl
  obtain ⟨hrid, hval, hframe⟩ :=
    add_time_domain_noise_mutates_input _ _ _ _ _ _ _ _ h
  refine ⟨_, _, h, ?_, (hframe 1 (by decide)).trans rfl⟩
  rw [hval]
  intro hcontra
  simp at hcontra

/-- C2: with a time-domain noise dictionary supplied, `rfcalc` applies the
injector to the clean solver waveform and returns the three-tuple of the
time axis, the noisy waveform and the covariance matrix used; with no
dictionary it returns the default `(time, wdata)` pair. -/
theorem rfcalc_noise_dict_returns_triple
    (solverN solverS : List (Layer ℝ) → List ℝ → List ℝ → ℕ → ℝ)
    (draw : List (List ℝ) → ℕ → ℝ) (model : List (Layer ℝ)) (sn fs : ℝ)
    (ndatar : ℕ) (qmodels : QEntry × QEntry) (nd : NoiseDict) :
    (∀ w2 Cd,
      add_time_domain_noise (rfWave solverN solverS model sn ndatar qmodels)
          (solverTime fs ndatar) nd draw = Except.ok (w2, Cd) →
      rfcalc solverN solverS draw model sn fs ndatar (some nd) qmodels =
        Except.ok (RFResult.triple (solverTime fs ndatar) w2 Cd)) ∧
    rfcalc solverN solverS draw model sn fs ndatar none qmodels =
      Except.ok (RFResult.pair (solverTime fs ndatar)
        (rfWave solverN solverS model sn ndatar qmodels)) := by
  constructor
  · intro w2 Cd h
    simp only [rfcalc, h]
  · rfl

/-- Witness for C2: a concrete call on which the injector succeeds, so the
adapter returns the triple. -/
theorem rfcalc_noise_dict_returns_triple_witness :
    ∃ w2 Cd,
      rfcalc (fun _ _ _ _ => 0) (fun _ _ _ _ => 0) (fun _ _ => 1) [] 0 25 1
        (some ⟨"sqExp", 1, 1, none⟩) defaultQModels =
      Except.ok (RFResult.triple (solverTime 25 1) w2 Cd) := by
  have hW : rfWave (fun _ _ _ _ => (0 : ℝ)) (fun _ _ _ _ => (0 : ℝ)) [] 0 1
      defaultQModels = [(0 : ℝ)] := by
    simp [rfWave]
  have ht : solverTime 25 1 = [(0 : ℝ)] := by
    show [((0 : ℕ) : ℝ) / 25] = [(0 : ℝ)]
    norm_num
  have hadd : add_time_domain_noise [(0 : ℝ)] [(0 : ℝ)] ⟨"sqExp", 1, 1, none⟩
      (fun _ _ => 1) = Except.ok ([(0 : ℝ) + 1], [[sqExp 0 0 1 1]]) := rfl
  exact ⟨_, _, (rfcalc_noise_dict_returns_triple _ _ _ _ _ _ _ _ _).1 _ _
    (by rw [hW, ht]; exact hadd)⟩

/-- C6 (amended): scalar `qmodels` entries are broadcast across all layers,
with the signature defaults `qa=1450`, `qb=600`; a per-layer array entry is
passed through as-is, with no length validation of any kind. -/
theorem qmodels_scalar_broadcast_no_length_check
    (npt : ℕ) (qs : ℝ) (qarr : List ℝ) :
    resolveQEntry npt (QEntry.scalar qs) = List.replicate npt qs ∧
    defaultQModels = (QEntry.scalar 1450, QEntry.scalar 600) ∧
    resolveQEntry npt (QEntry.array qarr) = qarr :=
  ⟨by simp [resolveQEntry], rfl, rfl⟩

/-- Counterexample to C6 as stated: on a 3-layer model with a 2-element
per-layer `qa` array, the attenuation resolution succeeds and forwards the
mismatched array unchanged, and the `rfcalc` call completes normally — no
error of any kind is raised, contrary to the claimed `ShapeError`. -/
theorem qmodels_mismatched_array_no_failure :
    (resolveQEntry 3 (QEntry.array [1, 2])).length = 2 ∧
    rfcalc (fun _ _ _ _ => 0) (fun _ _ _ _ => 0) (fun _ _ => 1)
        [⟨1, 1, 1⟩, ⟨1, 1, 1⟩, ⟨1, 1, 1⟩] 0 25 626 none
        (QEntry.array [1, 2], QEntry.scalar 600) =
      Except.ok (RFResult.pair (solverTime 25 626)
        (rfWave (fun _ _ _ _ => 0) (fun _ _ _ _ => 0) [⟨1, 1, 1⟩, ⟨1, 1, 1⟩, ⟨1, 1, 1⟩]
          0 626 (QEntry.array [1, 2], QEntry.scalar 600))) :=
  ⟨rfl, rfl⟩

/-- C8: on the 13-layer InterfaceDepth reference model with `ndatar = 626`
and `fs = 25`, `rfcalc` returns time and amplitude arrays of length exactly
626, the time axis running from `0` to `625/25` seconds. -/
theorem rfcalc_reference_model_shape
    (solverN solverS : List (Layer ℝ) → List ℝ → List ℝ → ℕ → ℝ)
    (draw : List (List ℝ) → ℕ → ℝ) (sn : ℝ) (qmodels : QEntry × QEntry) :
    ∃ t w, rfcalc solverN solverS draw refModel13 sn 25 626 none qmodels =
        Except.ok (RFResult.pair t w) ∧
      t.length = 626 ∧ w.length = 626 ∧
      t.head? = some 0 ∧ t.getLast? = some (625 / 25) := by
  refine ⟨solverTime 25 626, rfWave solverN solverS refModel13 sn 626 qmodels,
    rfl, ?_, ?_, ?_, ?_⟩
  · simp [solverTime]
  · rw [rfWave]
    split <;> simp
  · have h626 : (626 : ℕ) = Nat.succ 625 := rfl
    rw [solverTime, h626, List.range_succ_eq_map]
    simp
  · have h626 : (626 : ℕ) = Nat.succ 625 := rfl
    rw [solverTime, h626, List.range_succ, List.map_append]
    simp only [List.map_cons, List.map_nil, List.getLast?_concat]
    norm_num

/-! ## Model-format conversions (source lines 203-232, 305-333)

The plot staircase built by `l2mod`/`d2mod`/`v2mod`:
`px = np.zeros(2L); py = np.zeros(2L)`,
`py[1::2], py[2::2], px[0::2], px[1::2] = cum, cum[:-1], vel, vel`,
`py[-1] = dmax`.  For `L = 0` the final `py[-1] = dmax` raises `IndexError`,
hence the `Option` result.  Exact rationals stand in for the floats. -/

def cumsumFrom (acc : ℚ) : List ℚ → List ℚ
  | [] => []
  | x :: xs => (acc + x) :: cumsumFrom (acc + x) xs

/-- `np.cumsum`: running partial sums. -/
def cumsum (xs : List ℚ) : List ℚ := cumsumFrom 0 xs

/-- The velocity half of the staircase: every velocity duplicated,
`px[0::2] = px[1::2] = vel`. -/
def stepVel (vels : List ℚ) : List ℚ := (vels.map (fun v => [v, v])).flatten

/-- The depth half of the staircase:
`[0, cum[0], cum[0], ..., cum[L-2], cum[L-2], dmax]`. -/
def stepDepth (cum : List ℚ) (dmax : ℚ) : List ℚ :=
  0 :: ((cum.dropLast.map (fun c => [c, c])).flatten ++ [dmax])

/-- `l2mod` (source lines 305-317): staircase from the cumulative sums of
the thickness column. -/
def l2mod (model : List (Layer ℚ)) (dmax : ℚ) : Option (List ℚ × List ℚ) :=
  match model with
  | [] => none
  | _ => some (stepVel (model.map Layer.vs), stepDepth (cumsum (model.map Layer.a)) dmax)

/-- `d2mod` (source lines 321-333): staircase from the absolute depth
column, taken as-is. -/
def d2mod (model : List (Layer ℚ)) (dmax : ℚ) : Option (List ℚ × List ℚ) :=
  match model with
  | [] => none
  | _ => some (stepVel (model.map Layer.vs), stepDepth (model.map Layer.a) dmax)

/-- `v2mod` (source lines 203-232): the external Fortran `voro2mod` turns
Voronoi-nucleus depths into per-layer `(h, beta, vpvs)` arrays — that
routine is not in the Python source, so it is abstracted as the parameter
`voro2mod` — and the plot pair is then the same staircase applied to
`np.cumsum(h_f)` and `beta_f`.  Returns
`(np.cumsum(h_f), beta_f, vpvs_f, px, py)`. -/
def v2mod (voro2mod : List (Layer ℚ) → List ℚ × List ℚ × List ℚ)
    (model : List (Layer ℚ)) (dmax : ℚ) :
    Option (List ℚ × List ℚ × List ℚ × List ℚ × List ℚ) :=
  match model with
  | [] => none
  | _ =>
    some (cumsum (voro2mod model).1, (voro2mod model).2.1, (voro2mod model).2.2,
      stepVel (voro2mod model).2.1, stepDepth (cumsum (voro2mod model).1) dmax)

/-- C5: a `LayerThickness` model and an `InterfaceDepth` model describing
the same physical column (depth column equals the cumulative sums of the
thickness column, equal velocity columns) produce identical step-function
plot pairs through `l2mod` and `d2mod`; a Voronoi model whose layering
output matches the same column agrees through `v2mod` as well. -/
theorem model_conversions_agree
    (mL mD mV : List (Layer ℚ)) (dmax : ℚ)
    (voro2mod : List (Layer ℚ) → List ℚ × List ℚ × List ℚ)
    (hdepth : mD.map Layer.a = cumsum (mL.map Layer.a))
    (hvel : mD.map Layer.vs = mL.map Layer.vs)
    (hvdepth : cumsum (voro2mod mV).1 = mD.map Layer.a)
    (hvvel : (voro2mod mV).2.1 = mD.map Layer.vs)
    (hlen : mV = [] ↔ mD = []) :
    l2mod mL dmax = d2mod mD dmax ∧
    (v2mod voro2mod mV dmax).map (fun r => (r.2.2.2.1, r.2.2.2.2)) =
      d2mod mD dmax := by
  constructor
  · cases mL with
    | nil =>
      have hD : mD = [] := by simpa using hvel
      subst hD; rfl
    | cons x xs =>
      have hD : mD ≠ [] := by
        intro hD0
        rw [hD0] at hvel
        simp at hvel
      obtain ⟨d, ds, hDd⟩ := List.exists_cons_of_ne_nil hD
      subst hDd
      simp only [l2mod, d2mod]
      rw [hvel, hdepth]
  · cases mV with
    | nil =>
      have hD : mD = [] := hlen.mp rfl
      subst hD; rfl
    | cons x xs =>
      have hD : mD ≠ [] := by
        intro hD0
        have := hlen.mpr hD0
        simp at this
      obtain ⟨d, ds, hDd⟩ := List.exists_cons_of_ne_nil hD
      subst hDd
      simp only [v2mod, d2mod, Option.map_some']
      rw [hvvel, hvdepth]

/-- Witness for C5 on a concrete two-layer column: thicknesses `[20, 15]`
against depths `[20, 35]`. -/
theorem model_conversions_agree_witness :
    l2mod [⟨20, 346/100, 173/100⟩, ⟨15, 385/100, 173/100⟩] 60 =
      d2mod [⟨20, 346/100, 173/100⟩, ⟨35, 385/100, 173/100⟩] 60 ∧
    (v2mod (fun _ => ([20, 15], [346/100, 385/100], [173/100, 173/100]))
        [⟨20, 346/100, 173/100⟩, ⟨35, 385/100, 173/100⟩] 60).map
      (fun r => (r.2.2.2.1, r.2.2.2.2)) =
      d2mod [⟨20, 346/100, 173/100⟩, ⟨35, 385/100, 173/100⟩] 60 :=
  model_conversions_agree
    [⟨20, 346/100, 173/100⟩, ⟨15, 385/100, 173/100⟩]
    [⟨20, 346/100, 173/100⟩, ⟨35, 385/100, 173/100⟩]
    [⟨20, 346/100, 173/100⟩, ⟨35, 385/100, 173/100⟩] 60
    (fun _ => ([20, 15], [346/100, 385/100], [173/100, 173/100]))
    (by norm_num [cumsum, cumsumFrom]) (by norm_num)
    (by norm_num [cumsum, cumsumFrom]) (by norm_num) (by simp)

/-! ## Data covariance regularizer (source lines 236-267)

`np.linalg.svd` is an external library routine returning floating-point
factors; it is abstracted as an oracle producing `(U, s, V)` for a given
matrix and size.  The truncation logic downstream of the SVD call is the
source's, verbatim:
full variant `pmax = [n for n,a in enumerate(s) if a < 0.000001][0]`,
subset variant `pmax = [n for n,a in enumerate(s) if a > 0.000001][-1] + 1`,
then `Cdinv = V.T[:,:pmax] @ diag(1/s[:pmax]) @ U.T[:pmax,:]` and
`return Cdinv / (Ar*Ar)`.  An empty selection list makes the `[0]` / `[-1]`
lookup raise `IndexError`. -/

noncomputable def svdCutoff : ℝ := 0.000001

/-- `Cd[k1][k2] = np.exp(-0.5 * (k1 - k2) ** 2 / width**2)`. -/
noncomputable def gaussCdF (width : ℝ) : ℕ → ℕ → ℝ :=
  fun k1 k2 => Real.exp (-0.5 * ((k1 : ℝ) - (k2 : ℝ)) ^ 2 / width ^ 2)

/-- `Cdused = Cd[ind, :][:, ind]`. -/
def subMatrix (A : ℕ → ℕ → ℝ) (ind : List ℕ) : ℕ → ℕ → ℝ :=
  fun i j => A (ind.getD i 0) (ind.getD j 0)

/-- An SVD factorization as numpy returns it: `U, s, V = np.linalg.svd(A)`
(`s` in descending order, `V` already transposed). -/
structure SVDOut where
  U : ℕ → ℕ → ℝ
  s : List ℝ
  V : ℕ → ℕ → ℝ

/-- The abstracted `np.linalg.svd`, taking the matrix and its size. -/
def SVDOracle : Type := (ℕ → ℕ → ℝ) → ℕ → SVDOut

/-- `[n for n, a in enumerate(s) if a < 0.000001]`. -/
noncomputable def belowIdxs (s : List ℝ) : List ℕ :=
  (List.range s.length).filter (fun n => decide (s.getD n 0 < svdCutoff))

/-- Full-variant cutoff: the first index with a singular value strictly
below the threshold (`[...][0]`, `none` when the list is empty). -/
noncomputable def pmaxFull (s : List ℝ) : Option ℕ := (belowIdxs s).head?

/-- `[n for n, a in enumerate(s) if a > 0.000001]`. -/
noncomputable def aboveIdxs (s : List ℝ) : List ℕ :=
  (List.range s.length).filter (fun n => decide (svdCutoff < s.getD n 0))

/-- Subset-variant cutoff: the last index with a singular value strictly
above the threshold, plus one (`[...][-1] + 1`). -/
noncomputable def pmaxSub (s : List ℝ) : Option ℕ :=
  (aboveIdxs s).getLast?.map (fun n => n + 1)

/-- `np.dot(V.T[:, :pmax], np.dot(np.diag(1.0 / s[:pmax]), U.T[:pmax, :]))`:
the pseudo-inverse rebuilt from the first `pmax` singular triplets. -/
noncomputable def truncPinv (U V : ℕ → ℕ → ℝ) (s : List ℝ) (pmax : ℕ) : ℕ → ℕ → ℝ :=
  fun i j => ∑ k ∈ Finset.range pmax, V k i * (1 / s.getD k 0) * U j k

inductive TruncError where
  /-- `IndexError`: the index-selection list comprehension was empty. -/
  | indexErrorEmpty
deriving DecidableEq

/-- The SVD of the full `ndata × ndata` Gaussian covariance matrix. -/
noncomputable def fullSVD (svd : SVDOracle) (width : ℝ) (ndata : ℕ) : SVDOut :=
  svd (gaussCdF width) ndata

/-- The SVD of the index-restricted covariance matrix. -/
noncomputable def subSVD (svd : SVDOracle) (width : ℝ) (ind : List ℕ) : SVDOut :=
  svd (subMatrix (gaussCdF width) ind) ind.length

/-- `InvDataCov(width, Ar, ndata)` (source lines 236-249). -/
noncomputable def InvDataCov (svd : SVDOracle) (width Ar : ℝ) (ndata : ℕ) :
    Except TruncError (ℕ → ℕ → ℝ) :=
  match pmaxFull (fullSVD svd width ndata).s with
  | none => .error TruncError.indexErrorEmpty
  | some pmax =>
    .ok (fun i j => truncPinv (fullSVD svd width ndata).U (fullSVD svd width ndata).V
      (fullSVD svd width ndata).s pmax i j / (Ar * Ar))

/-- `InvDataCovSub(width, Ar, ndata, ind)` (source lines 253-267). -/
noncomputable def InvDataCovSub (svd : SVDOracle) (width Ar : ℝ) (ndata : ℕ)
    (ind : List ℕ) : Except TruncError (ℕ → ℕ → ℝ) :=
  match pmaxSub (subSVD svd width ind).s with
  | none => .error TruncError.indexErrorEmpty
  | some pmax =>
    .ok (fun i j => truncPinv (subSVD svd width ind).U (subSVD svd width ind).V
      (subSVD svd width ind).s pmax i j / (Ar * Ar))

/-- A correct SVD factorization of a `1 × 1` matrix: one nonnegative
singular value and two orthogonal `1 × 1` factors. -/
def IsSVD1 (A : ℕ → ℕ → ℝ) (o : SVDOut) : Prop :=
  o.s.length = 1 ∧ 0 ≤ o.s.getD 0 0 ∧
  A 0 0 = o.U 0 0 * o.s.getD 0 0 * o.V 0 0 ∧
  o.U 0 0 * o.U 0 0 = 1 ∧ o.V 0 0 * o.V 0 0 = 1

/-! ### Helper lemmas about the index selections -/

lemma head?_min_of_pairwise {l : List ℕ} (hl : l.Pairwise (· < ·)) {p : ℕ}
    (h : l.head? = some p) : p ∈ l ∧ ∀ q ∈ l, p ≤ q := by
  cases l with
  | nil => simp at h
  | cons a t =>
    simp only [List.head?_cons, Option.some.injEq] at h
    subst h
    refine ⟨List.mem_cons_self _ _, ?_⟩
    intro q hq
    rcases List.mem_cons.mp hq with h1 | h2
    · exact le_of_eq h1.symm
    · exact le_of_lt ((List.pairwise_cons.mp hl).1 q h2)

lemma getLast?_max_of_pairwise {l : List ℕ} (hl : l.Pairwise (· < ·)) {p : ℕ}
    (h : l.getLast? = some p) : p ∈ l ∧ ∀ q ∈ l, q ≤ p := by
  induction l with
  | nil => simp at h
  | cons a t ih =>
    cases t with
    | nil =>
      simp only [List.getLast?_singleton, Option.some.injEq] at h
      subst h
      refine ⟨List.mem_singleton_self _, ?_⟩
      intro q hq
      rcases List.mem_singleton.mp hq with h1
      exact le_of_eq h1
    | cons b t2 =>
      rw [List.getLast?_cons_cons] at h
      obtain ⟨hmem, hmax⟩ := ih (List.pairwise_cons.mp hl).2 h
      refine ⟨List.mem_cons_of_mem _ hmem, ?_⟩
      intro q hq
      rcases List.mem_cons.mp hq with h1 | h2
      · exact h1 ▸ le_of_lt ((List.pairwise_cons.mp hl).1 p hmem)
      · exact hmax q h2

lemma pmaxFull_spec {s : List ℝ} {p : ℕ} (h : pmaxFull s = some p) :
    p < s.length ∧ s.getD p 0 < svdCutoff ∧ ∀ i < p, svdCutoff ≤ s.getD i 0 := by
  have hpw : (belowIdxs s).Pairwise (· < ·) :=
    List.Pairwise.filter _ (List.pairwise_lt_range _)
  obtain ⟨hmem, hmin⟩ := head?_min_of_pairwise hpw h
  rw [belowIdxs, List.mem_filter, List.mem_range] at hmem
  obtain ⟨hlt, hcond⟩ := hmem
  refine ⟨hlt, by simpa using hcond, ?_⟩
  intro i hip
  by_contra hc
  push_neg at hc
  have hi_mem : i ∈ belowIdxs s := by
    rw [belowIdxs, List.mem_filter, List.mem_range]
    exact ⟨lt_trans hip hlt, by simpa using hc⟩
  exact absurd (hmin i hi_mem) (not_le.mpr hip)

lemma pmaxSub_spec {s : List ℝ} {p : ℕ} (h : pmaxSub s = some p) :
    ∃ q, p = q + 1 ∧ q < s.length ∧ svdCutoff < s.getD q 0 ∧
      ∀ i, q < i → i < s.length → s.getD i 0 ≤ svdCutoff := by
  rw [pmaxSub] at h
  cases hgl : (aboveIdxs s).getLast? with
  | none => rw [hgl] at h; simp at h
  | some q =>
    rw [hgl] at h
    simp only [Option.map_some', Option.some.injEq] at h
    have hpw : (aboveIdxs s).Pairwise (· < ·) :=
      List.Pairwise.filter _ (List.pairwise_lt_range _)
    obtain ⟨hmem, hmax⟩ := getLast?_max_of_pairwise hpw hgl
    rw [aboveIdxs, List.mem_filter, List.mem_range] at hmem
    refine ⟨q, h.symm, hmem.1, by simpa using hmem.2, ?_⟩
    intro i hqi hilen
    by_contra hc
    push_neg at hc
    have hi_mem : i ∈ aboveIdxs s := by
      rw [aboveIdxs, List.mem_filter, List.mem_range]
      exact ⟨hilen, by simpa using hc⟩
    exact absurd (hmax i hi_mem) (not_le.mpr hqi)

lemma pmaxFull_none {s : List ℝ} (h : ∀ i < s.length, svdCutoff ≤ s.getD i 0) :
    pmaxFull s = none := by
  rw [pmaxFull]
  have hnil : belowIdxs s = [] := by
    rw [belowIdxs]
    apply List.filter_eq_nil_iff.mpr
    intro n hn
    simp only [List.mem_range] at hn
    simpa using not_lt.mpr (h n hn)
  rw [hnil]; rfl

/-! ### Claim theorems for the regularizer -/

/-- C1: for every width, amplitude and ndata (and every SVD factorization
the library returns), the full-matrix variant retains exactly the singular
values strictly before the position of the first one below `1e-6`, while the
subset variant retains exactly `(last index strictly above 1e-6) + 1`
leading singular values; both rebuild the pseudo-inverse from the retained
triplets and scale it by `1/amplitude^2`. -/
theorem InvDataCov_truncation_rules (svd : SVDOracle) (width Ar : ℝ)
    (ndata : ℕ) (ind : List ℕ) :
    (∀ M, InvDataCov svd width Ar ndata = Except.ok M →
      ∃ p, p < (fullSVD svd width ndata).s.length ∧
        (fullSVD svd width ndata).s.getD p 0 < svdCutoff ∧
        (∀ i < p, svdCutoff ≤ (fullSVD svd width ndata).s.getD i 0) ∧
        M = fun i j => truncPinv (fullSVD svd width ndata).U (fullSVD svd width ndata).V
          (fullSVD svd width ndata).s p i j / (Ar * Ar)) ∧
    (∀ M, InvDataCovSub svd width Ar ndata ind = Except.ok M →
      ∃ q, q < (subSVD svd width ind).s.length ∧
        svdCutoff < (subSVD svd width ind).s.getD q 0 ∧
        (∀ i, q < i → i < (subSVD svd width ind).s.length →
          (subSVD svd width ind).s.getD i 0 ≤ svdCutoff) ∧
        M = fun i j => truncPinv (subSVD svd width ind).U (subSVD svd width ind).V
          (subSVD svd width ind).s (q + 1) i j / (Ar * Ar)) := by
  constructor
  · intro M hM
    rw [InvDataCov] at hM
    split at hM
    · simp at hM
    · rename_i p hp
      simp only [Except.ok.injEq] at hM
      obtain ⟨h1, h2, h3⟩ := pmaxFull_spec hp
      exact ⟨p, h1, h2, h3, hM.symm⟩
  · intro M hM
    rw [InvDataCovSub] at hM
    split at hM
    · simp at hM
    · rename_i p hp
      simp only [Except.ok.injEq] at hM
      obtain ⟨q, hq1, hq2, hq3, hq4⟩ := pmaxSub_spec hp
      subst hq1
      exact ⟨q, hq2, hq3, hq4, hM.symm⟩

/-- A toy SVD oracle with singular values `[1, 1e-8]`, used by witnesses. -/
noncomputable def svdToy : SVDOracle := fun _ _ =>
  ⟨fun _ _ => 0, [1, 0.00000001], fun _ _ => 0⟩

/-- The full-variant output of `InvDataCov` on the toy oracle. -/
noncomputable def Mtoy : ℕ → ℕ → ℝ :=
  fun i j => truncPinv (fullSVD svdToy 1 2).U (fullSVD svdToy 1 2).V
    (fullSVD svdToy 1 2).s 1 i j / ((1 : ℝ) * 1)

/-- The subset-variant output of `InvDataCovSub` on the toy oracle. -/
noncomputable def MtoySub : ℕ → ℕ → ℝ :=
  fun i j => truncPinv (subSVD svdToy 1 [0, 1]).U (subSVD svdToy 1 [0, 1]).V
    (subSVD svdToy 1 [0, 1]).s 1 i j / ((1 : ℝ) * 1)

lemma pmaxFull_toy : pmaxFull (fullSVD svdToy 1 2).s = some 1 := by
  have hs : (fullSVD svdToy 1 2).s = [(1 : ℝ), 0.00000001] := rfl
  rw [hs, pmaxFull, belowIdxs]
  have hr : List.range ([(1 : ℝ), 0.00000001].length) = [0, 1] := rfl
  rw [hr, List.filter_cons, List.filter_cons, List.filter_nil]
  norm_num [svdCutoff]

lemma pmaxSub_toy : pmaxSub (subSVD svdToy 1 [0, 1]).s = some 1 := by
  have hs : (subSVD svdToy 1 [0, 1]).s = [(1 : ℝ), 0.00000001] := rfl
  rw [hs, pmaxSub, aboveIdxs]
  have hr : List.range ([(1 : ℝ), 0.00000001].length) = [0, 1] := rfl
  rw [hr, List.filter_cons, List.filter_cons, List.filter_nil]
  norm_num [svdCutoff]

/-- Witness for C1 on the toy oracle: both variants succeed, and the
truncation positions are as characterized (full keeps 1 value before the
first sub-threshold position; subset keeps last-above-index + 1 values). -/
theorem InvDataCov_truncation_rules_witness :
    InvDataCov svdToy 1 1 2 = Except.ok Mtoy ∧
    InvDataCovSub svdToy 1 1 2 [0, 1] = Except.ok MtoySub ∧
    (∃ p, p < (fullSVD svdToy 1 2).s.length ∧
      (fullSVD svdToy 1 2).s.getD p 0 < svdCutoff ∧
      (∀ i < p, svdCutoff ≤ (fullSVD svdToy 1 2).s.getD i 0) ∧
      Mtoy = fun i j => truncPinv (fullSVD svdToy 1 2).U (fullSVD svdToy 1 2).V
        (fullSVD svdToy 1 2).s p i j / ((1 : ℝ) * 1)) ∧
    (∃ q, q < (subSVD svdToy 1 [0, 1]).s.length ∧
      svdCutoff < (subSVD svdToy 1 [0, 1]).s.getD q 0 ∧
      (∀ i, q < i → i < (subSVD svdToy 1 [0, 1]).s.length →
        (subSVD svdToy 1 [0, 1]).s.getD i 0 ≤ svdCutoff) ∧
      MtoySub = fun i j => truncPinv (subSVD svdToy 1 [0, 1]).U
        (subSVD svdToy 1 [0, 1]).V (subSVD svdToy 1 [0, 1]).s (q + 1) i j /
          ((1 : ℝ) * 1)) := by
  have h1 : InvDataCov svdToy 1 1 2 = Except.ok Mtoy := by
    rw [InvDataCov, pmaxFull_toy]
    rfl
  have h2 : InvDataCovSub svdToy 1 1 2 [0, 1] = Except.ok MtoySub := by
    rw [InvDataCovSub, pmaxSub_toy]
    rfl
  exact ⟨h1, h2,
    (InvDataCov_truncation_rules svdToy 1 1 2 [0, 1]).1 Mtoy h1,
    (InvDataCov_truncation_rules svdToy 1 1 2 [0, 1]).2 MtoySub h2⟩

/-- C10: `InvDataCov` returns a result only when some singular value of the
covariance matrix lies strictly below `1e-6`; when every singular value is
at least the threshold the first-index lookup is taken from an empty list
and the call fails.  In particular any correct SVD of the `1 × 1` case
(`ndata = 1`, whose only singular value is `1`) makes it fail. -/
theorem InvDataCov_requires_small_singular_value (svd : SVDOracle) (width Ar : ℝ) :
    (∀ ndata M, InvDataCov svd width Ar ndata = Except.ok M →
      ∃ i, i < (fullSVD svd width ndata).s.length ∧
        (fullSVD svd width ndata).s.getD i 0 < svdCutoff) ∧
    (∀ ndata, (∀ i < (fullSVD svd width ndata).s.length,
        svdCutoff ≤ (fullSVD svd width ndata).s.getD i 0) →
      InvDataCov svd width Ar ndata = Except.error TruncError.indexErrorEmpty) ∧
    (IsSVD1 (gaussCdF width) (fullSVD svd width 1) →
      InvDataCov svd width Ar 1 = Except.error TruncError.indexErrorEmpty) := by
  refine ⟨?_, ?_, ?_⟩
  · intro ndata M hM
    rw [InvDataCov] at hM
    split at hM
    · simp at hM
    · rename_i p hp
      obtain ⟨hlt, hsm, _⟩ := pmaxFull_spec hp
      exact ⟨p, hlt, hsm⟩
  · intro ndata hall
    rw [InvDataCov, pmaxFull_none hall]
  · intro hsvd
    obtain ⟨hlen, hnn, hA, hU, hV⟩ := hsvd
    have hgauss : gaussCdF width 0 0 = 1 := by
      rw [gaussCdF]
      norm_num
    have hprod : (fullSVD svd width 1).U 0 0 * (fullSVD svd width 1).s.getD 0 0 *
        (fullSVD svd width 1).V 0 0 = 1 := by
      rw [← hA, hgauss]
    have hs1 : (fullSVD svd width 1).s.getD 0 0 = 1 := by
      set u := (fullSVD svd width 1).U 0 0 with hu
      set v := (fullSVD svd width 1).V 0 0 with hv
      set c := (fullSVD svd width 1).s.getD 0 0 with hc
      have h2 : c * (u * v) = 1 := by linear_combination hprod
      have huv : (u * v) * (u * v) = 1 := by
        calc (u * v) * (u * v) = (u * u) * (v * v) := by ring
        _ = 1 := by rw [hU, hV, one_mul]
      rcases mul_self_eq_one_iff.mp huv with huv1 | huv1
      · rw [huv1, mul_one] at h2
        exact h2
      · rw [huv1] at h2
        linarith
    have hall : ∀ i < (fullSVD svd width 1).s.length,
        svdCutoff ≤ (fullSVD svd width 1).s.getD i 0 := by
      intro i hi
      rw [hlen] at hi
      interval_cases i
      rw [hs1, svdCutoff]
      norm_num
    rw [InvDataCov, pmaxFull_none hall]

/-- A rank-1 SVD oracle that factors any matrix `A` as
`[1] * [A 0 0] * [1]`, a correct SVD of the `1 × 1` Gaussian covariance. -/
noncomputable def svdRank1 : SVDOracle := fun A _ =>
  ⟨fun _ _ => 1, [A 0 0], fun _ _ => 1⟩

/-- Witness for C10: at `ndata = 1` (width `2.5`, amplitude `0.01`) the
rank-1 oracle is a correct SVD and `InvDataCov` fails with the empty-list
`IndexError`. -/
theorem InvDataCov_requires_small_singular_value_witness :
    IsSVD1 (gaussCdF (5 / 2)) (fullSVD svdRank1 (5 / 2) 1) ∧
    InvDataCov svdRank1 (5 / 2) (1 / 100) 1 =
      Except.error TruncError.indexErrorEmpty := by
  have hsvd : IsSVD1 (gaussCdF (5 / 2)) (fullSVD svdRank1 (5 / 2) 1) := by
    refine ⟨rfl, ?_, ?_, ?_, ?_⟩
    · show (0 : ℝ) ≤ gaussCdF (5 / 2) 0 0
      rw [gaussCdF]
      exact (Real.exp_pos _).le
    · show gaussCdF (5 / 2) 0 0 = 1 * gaussCdF (5 / 2) 0 0 * 1
      ring
    · show (1 : ℝ) * 1 = 1
      norm_num
    · show (1 : ℝ) * 1 = 1
      norm_num
  exact ⟨hsvd,
    (InvDataCov_requires_small_singular_value svdRank1 (5 / 2) (1 / 100)).2.2 hsvd⟩

end Pyrf96
